import Mathlib

/-!
Verification of the search / ranking core of the reddit-perspective-cards
repository.

The embedded code:

* `search_posts` (src/infra/sql/005_fix_bm25_or_proper.sql) — lexical search
  with an OR-rewritten tsquery, ordered by rank descending then popularity
  score descending, limited to 20 rows.
* `search_posts_semantic` (src/infra/sql/003_add_embeddings.sql) — vector
  nearest-neighbour search over posts with a non-null embedding.
* `search_posts_hybrid` (src/infra/sql/003_add_embeddings.sql and
  003_add_embeddings_fix.sql) — Reciprocal Rank Fusion of a lexical leg
  (`websearch_to_tsquery`, which ANDs plain terms) and a vector leg
  (top 100 nearest neighbours), joined by a FULL OUTER JOIN plus a LEFT JOIN
  back to `posts`, ordered by `rrf_score DESC` and truncated.
* the `GET` handler of src/apps/web/app/api/search/route.ts.

Modelling conventions:

* A row of the `posts` table (src/infra/sql/001_init.sql, extended by
  002_add_search.sql and 003_add_embeddings.sql) is a `Post`.  `id` is the
  primary key (modelled as `Nat`); `preview_excerpt` is a nullable column and
  is therefore an `Option`; `search_vector` is modelled by the list of
  lexemes it contains (`terms`); `embedding` is the nullable vector column.
* PostgreSQL's opaque numeric functions `ts_rank` and the cosine distance
  operator are external to the repository; they are passed as abstract
  functions `rank, dist : Post → ℚ` (their value on a post row for the fixed
  query at hand).  SQL float arithmetic is modelled exactly over `ℚ`.
* A SQL `ORDER BY` leaves the relative order of ties unspecified, so a query
  result is modelled relationally: any permutation of the underlying bag that
  is sorted by the ORDER BY key is a possible output.
-/

namespace RedditSearch

/-- A row of the `posts` table (001_init.sql / 002_add_search.sql /
003_add_embeddings.sql).  `terms` is the set of lexemes of `search_vector`;
`embedding` is the nullable `vector(1536)` column; `preview_excerpt` is
nullable. -/
structure Post where
  id : Nat
  reddit_id : String
  title : String
  url : String
  score : Int
  subreddit : String
  created_utc : Int
  preview_excerpt : Option String
  terms : List String
  embedding : Option (List ℚ)
deriving DecidableEq, Repr

/-- The function `websearch_to_tsquery('english', q)` turns plain words into terms joined
by the AND operator; a tsvector matches iff every term occurs (used by the
lexical leg of `search_posts_hybrid`).  `qterms` is the list of stemmed,
stopword-free lexemes of the query. -/
def matchesAnd (qterms : List String) (p : Post) : Bool :=
  qterms.all (fun t => p.terms.contains t)

/-- The OR-rewritten tsquery of 005_fix_bm25_or_proper.sql
(`replace(plainto_tsquery(q)::text, ' & ', ' | ')`): a tsvector matches iff
at least one term occurs. -/
def matchesOr (qterms : List String) (p : Post) : Bool :=
  qterms.any (fun t => p.terms.contains t)

/-- The SQL filter `p.embedding IS NOT NULL`. -/
def hasEmbedding (p : Post) : Bool :=
  p.embedding.isSome

/-! ### search_posts (005_fix_bm25_or_proper.sql) -/

/-- The ORDER BY key of `search_posts`: `rank DESC, p.score DESC`. -/
def lexOrder (rank : Post → ℚ) (a b : Post) : Prop :=
  rank b < rank a ∨ (rank b = rank a ∧ b.score ≤ a.score)

/-- Predicate: `out` is a possible result of `search_posts`: some ordering `full` of the
posts whose search_vector matches the OR query, sorted by
`rank DESC, score DESC`, truncated by `LIMIT 20`. -/
def IsSearchPostsRun (posts : List Post) (qterms : List String)
    (rank : Post → ℚ) (out : List Post) : Prop :=
  ∃ full : List Post,
    full.Perm (posts.filter (matchesOr qterms)) ∧
    full.Sorted (lexOrder rank) ∧
    out = full.take 20

/-! ### search_posts_semantic (003_add_embeddings.sql) -/

/-- Predicate: `full` is the posts with a non-null embedding, ordered by
`embedding <=> query_embedding` (distance ascending). -/
def IsSemFull (posts : List Post) (dist : Post → ℚ) (full : List Post) : Prop :=
  full.Perm (posts.filter hasEmbedding) ∧
  full.Sorted (fun a b => dist a ≤ dist b)

/-- A returned row of `search_posts_semantic`: the post's columns together
with `similarity = 1 - (embedding <=> query_embedding)`. -/
def toSemRow (dist : Post → ℚ) (p : Post) : Post × ℚ :=
  (p, 1 - dist p)

/-- Predicate: `out` is a possible result of `search_posts_semantic`: posts with a
non-null embedding, by distance ascending, `LIMIT match_count`, each carrying
its cosine similarity. -/
def IsSemanticRun (posts : List Post) (dist : Post → ℚ) (matchCount : Nat)
    (out : List (Post × ℚ)) : Prop :=
  ∃ full : List Post,
    IsSemFull posts dist full ∧
    out = (full.take matchCount).map (toSemRow dist)

/-! ### search_posts_hybrid (003_add_embeddings.sql / 003_add_embeddings_fix.sql) -/

/-- The lexical leg `bm25_results`: posts matching the
`websearch_to_tsquery` AND-query, ordered by `ts_rank` descending
(`ROW_NUMBER` positions are 1-based indices into this list).  No LIMIT. -/
def IsLexList (posts : List Post) (qterms : List String) (rank : Post → ℚ)
    (lexList : List Post) : Prop :=
  lexList.Perm (posts.filter (matchesAnd qterms)) ∧
  lexList.Sorted (fun a b => rank b ≤ rank a)

/-- A row of the `combined` CTE of `search_posts_hybrid`.  Columns obtained
through the FULL OUTER JOIN / LEFT JOIN COALESCE chains are nullable. -/
structure HRow where
  id : Nat
  reddit_id : Option String
  title : Option String
  url : Option String
  score : Option Int
  subreddit : Option String
  created_utc : Option Int
  preview_excerpt : Option String
  bm25_rank : ℚ
  semantic_similarity : ℚ
  rrf_score : ℚ
deriving DecidableEq, Repr

/-- The `combined` CTE row for document id `pid`:
`b` is the matching `bm25_results` row (with its `ROW_NUMBER` position),
`s` the matching `semantic_results` row, `p` the LEFT-JOINed `posts` row;
every column is the corresponding COALESCE, and
`rrf_score = COALESCE(1.0/(60 + b.bm25_position), 0)
           + COALESCE(1.0/(60 + s.semantic_position), 0)`. -/
def mkHRow (posts lexList semList : List Post) (dist rank : Post → ℚ)
    (pid : Nat) : HRow :=
  let b := lexList.find? (fun p => p.id == pid)
  let s := semList.find? (fun p => p.id == pid)
  let p := posts.find? (fun q => q.id == pid)
  { id := pid
    reddit_id := (b.map (·.reddit_id)).orElse (fun _ => p.map (·.reddit_id))
    title := (b.map (·.title)).orElse (fun _ => p.map (·.title))
    url := (b.map (·.url)).orElse (fun _ => p.map (·.url))
    score := (b.map (·.score)).orElse (fun _ => p.map (·.score))
    subreddit := (b.map (·.subreddit)).orElse (fun _ => p.map (·.subreddit))
    created_utc := (b.map (·.created_utc)).orElse (fun _ => p.map (·.created_utc))
    preview_excerpt :=
      (b.bind (·.preview_excerpt)).orElse (fun _ => p.bind (·.preview_excerpt))
    bm25_rank := match b with | some post => rank post | none => 0
    semantic_similarity := match s with | some post => 1 - dist post | none => 0
    rrf_score :=
      (match lexList.findIdx? (fun p => p.id == pid) with
        | some i => 1 / (60 + ((i : ℚ) + 1))
        | none => 0) +
      (match semList.findIdx? (fun p => p.id == pid) with
        | some i => 1 / (60 + ((i : ℚ) + 1))
        | none => 0) }

/-- The document ids produced by
`bm25_results b FULL OUTER JOIN semantic_results s ON b.id = s.id`
(each side has unique ids): every lexical id, then every vector-only id. -/
def combinedIds (lexList semList : List Post) : List Nat :=
  lexList.map (·.id) ++
    (semList.map (·.id)).filter (fun i => !(lexList.map (·.id)).contains i)

/-- The rows of the `combined` CTE. -/
def combinedRows (posts lexList semList : List Post) (dist rank : Post → ℚ) :
    List HRow :=
  (combinedIds lexList semList).map (mkHRow posts lexList semList dist rank)

/-- The final ORDER BY key of `search_posts_hybrid`: `rrf_score DESC`. -/
def rrfDesc (a b : HRow) : Prop :=
  b.rrf_score ≤ a.rrf_score

/-- Predicate: `out` is a possible result of `search_posts_hybrid`: for some valid
lexical leg and some valid vector ordering (truncated to its `LIMIT 100`),
`out` is a permutation of the `combined` rows sorted by `rrf_score DESC`,
truncated by `LIMIT match_count`. -/
def IsHybridRun (posts : List Post) (qterms : List String)
    (dist rank : Post → ℚ) (matchCount : Nat) (out : List HRow) : Prop :=
  ∃ lexList semFull : List Post, ∃ sorted : List HRow,
    IsLexList posts qterms rank lexList ∧
    IsSemFull posts dist semFull ∧
    sorted.Perm (combinedRows posts lexList (semFull.take 100) dist rank) ∧
    sorted.Sorted rrfDesc ∧
    out = sorted.take matchCount

/-! ### Spec-side RRF formula -/

/-- The 1-based position of document `pid` in a ranked list, `none` when absent
("rank-position is 1-based" in the spec's RankedItem). -/
def rankPos (l : List Post) (pid : Nat) : Option Nat :=
  (l.findIdx? (fun p => p.id == pid)).map (· + 1)

/-- Spec-side contribution of one ranker list to a document's RRF score:
`1/(60 + position)` when present, `0` when absent. -/
def contrib (l : List Post) (pid : Nat) : ℚ :=
  match rankPos l pid with
  | some p => 1 / (60 + (p : ℚ))
  | none => 0

/-- Spec-side RRF score: the sum, over the two input lists, of the
per-list contribution (`k = 60`). -/
def rrfSpec (lexList semList : List Post) (pid : Nat) : ℚ :=
  contrib lexList pid + contrib semList pid

/-! ### Executable runs

Canonical deterministic executions of the three store queries (one concrete
resolution of the `ORDER BY` tie freedom), used to exhibit concrete runs. -/

/-- One concrete ordering compatible with `ORDER BY key DESC`. -/
def sortByDesc (f : α → ℚ) (l : List α) : List α :=
  List.insertionSort (fun a b => f b ≤ f a) l

/-- One concrete ordering compatible with `ORDER BY key ASC`. -/
def sortByAsc (f : α → ℚ) (l : List α) : List α :=
  List.insertionSort (fun a b => f a ≤ f b) l

/-- A canonical `bm25_results` leg of `search_posts_hybrid`. -/
def lexRun (posts : List Post) (qterms : List String) (rank : Post → ℚ) :
    List Post :=
  sortByDesc rank (posts.filter (matchesAnd qterms))

/-- A canonical full vector ordering (before `LIMIT 100`). -/
def semFullRun (posts : List Post) (dist : Post → ℚ) : List Post :=
  sortByAsc dist (posts.filter hasEmbedding)

/-- A canonical execution of `search_posts_hybrid`. -/
def hybridRun (posts : List Post) (qterms : List String)
    (dist rank : Post → ℚ) (matchCount : Nat) : List HRow :=
  (sortByDesc (·.rrf_score)
      (combinedRows posts (lexRun posts qterms rank)
        ((semFullRun posts dist).take 100) dist rank)).take matchCount

/-! ### The API route handler (src/apps/web/app/api/search/route.ts) -/

/-- The two query parameters read by the handler (`q`, `mode`). -/
structure Request where
  q : Option String
  mode : Option String
deriving DecidableEq, Repr

/-- An outbound call to an external collaborator: the OpenAI embeddings
endpoint, or one of the three Supabase RPCs. -/
inductive ExtCall where
  | embed (input : String)
  | rpcSearchPosts (searchQuery : String)
  | rpcSearchSemantic (queryEmbedding : List ℚ) (matchCount : Nat)
  | rpcSearchHybrid (searchQuery : String) (queryEmbedding : List ℚ)
      (matchCount : Nat)
deriving DecidableEq, Repr

/-- The JSON responses the handler can produce (`α` is the row type of the
RPC result). -/
inductive Response (α : Type) where
  | error (status : Nat) (message : String) (details : Option String)
  | ok (query : String) (mode : String) (count : Nat) (results : List α)
deriving DecidableEq, Repr

/-- JavaScript's `String.prototype.trim()`: strip whitespace from both ends
(on the queries at issue it agrees with Lean's `String.trim`; it is spelled
out over `String.data` so that concrete handler runs are computable). -/
def jsTrim (s : String) : String :=
  ⟨((s.data.dropWhile Char.isWhitespace).reverse.dropWhile
      Char.isWhitespace).reverse⟩

/-- Shared tail of the three mode branches: inspect the Supabase result's
`error` / `data` fields and shape the response. -/
def rpcRespond {α : Type} (query mode : String) (calls : List ExtCall)
    (rpcData : Option (List α)) (rpcError : Option String) :
    Response α × List ExtCall :=
  match rpcError with
  | some e => (.error 500 "Search failed" (some e), calls)
  | none => (.ok query mode (rpcData.getD []).length (rpcData.getD []), calls)

/-- The `GET` handler of route.ts, as a pure function of the request and of
the outcomes of the external calls it may make: `embedResult` is the
embedding call (`.error` models a thrown exception, caught by the handler's
`catch` as a 500 "Internal server error"), `rpcData`/`rpcError` are the
`data`/`error` fields of the Supabase RPC result.  The second component
records the external calls actually issued, in order. -/
def GET {α : Type} (req : Request) (embedResult : Except String (List ℚ))
    (rpcData : Option (List α)) (rpcError : Option String) :
    Response α × List ExtCall :=
  let modeStr := req.mode.getD "bm25"
  match req.q with
  | none => (.error 400 "Query parameter \"q\" is required" none, [])
  | some query =>
    if (jsTrim query).length = 0 then
      (.error 400 "Query parameter \"q\" is required" none, [])
    else if (jsTrim query).length < 2 then
      (.error 400 "Query must be at least 2 characters" none, [])
    else if modeStr ∉ (["bm25", "semantic", "hybrid"] : List String) then
      (.error 400 "Invalid mode. Must be: bm25, semantic, or hybrid" none, [])
    else if modeStr = "bm25" then
      rpcRespond query modeStr [.rpcSearchPosts query] rpcData rpcError
    else
      match embedResult with
      | .error e => (.error 500 "Internal server error" (some e), [.embed query])
      | .ok emb =>
        if modeStr = "semantic" then
          rpcRespond query modeStr [.embed query, .rpcSearchSemantic emb 20]
            rpcData rpcError
        else
          rpcRespond query modeStr [.embed query, .rpcSearchHybrid query emb 20]
            rpcData rpcError

/-- A request fails the handler's up-front validation when `q` is missing or
trim-empty, shorter than 2 characters after trimming, or the mode parameter
is none of `bm25`, `semantic`, `hybrid`. -/
def FailsValidation (req : Request) : Prop :=
  (∀ q, req.q = some q → (jsTrim q).length < 2) ∨
  req.mode.getD "bm25" ∉ (["bm25", "semantic", "hybrid"] : List String)

/-! ### Decidability instances for the order relations -/

instance (rank : Post → ℚ) : DecidableRel (lexOrder rank) := fun a b => by
  unfold lexOrder
  infer_instance

instance : DecidableRel rrfDesc := fun a b => by
  unfold rrfDesc
  infer_instance

/-! ### Sorting helper lemmas -/

theorem sortByDesc_perm (f : α → ℚ) (l : List α) : (sortByDesc f l).Perm l :=
  List.perm_insertionSort _ l

theorem sortByDesc_sorted (f : α → ℚ) (l : List α) :
    (sortByDesc f l).Sorted (fun a b => f b ≤ f a) := by
  haveI : IsTotal α (fun a b => f b ≤ f a) := ⟨fun a b => le_total (f b) (f a)⟩
  haveI : IsTrans α (fun a b => f b ≤ f a) :=
    ⟨fun _ _ _ hab hbc => le_trans hbc hab⟩
  exact List.sorted_insertionSort _ l

theorem sortByAsc_perm (f : α → ℚ) (l : List α) : (sortByAsc f l).Perm l :=
  List.perm_insertionSort _ l

theorem sortByAsc_sorted (f : α → ℚ) (l : List α) :
    (sortByAsc f l).Sorted (fun a b => f a ≤ f b) := by
  haveI : IsTotal α (fun a b => f a ≤ f b) := ⟨fun a b => le_total (f a) (f b)⟩
  haveI : IsTrans α (fun a b => f a ≤ f b) :=
    ⟨fun _ _ _ hab hbc => le_trans hab hbc⟩
  exact List.sorted_insertionSort _ l

/-! ### The canonical runs are valid runs -/

theorem lexRun_isLexList (posts : List Post) (qterms : List String)
    (rank : Post → ℚ) : IsLexList posts qterms rank (lexRun posts qterms rank) :=
  ⟨sortByDesc_perm _ _, sortByDesc_sorted _ _⟩

theorem semFullRun_isSemFull (posts : List Post) (dist : Post → ℚ) :
    IsSemFull posts dist (semFullRun posts dist) :=
  ⟨sortByAsc_perm _ _, sortByAsc_sorted _ _⟩

theorem hybridRun_isHybridRun (posts : List Post) (qterms : List String)
    (dist rank : Post → ℚ) (matchCount : Nat) :
    IsHybridRun posts qterms dist rank matchCount
      (hybridRun posts qterms dist rank matchCount) :=
  ⟨lexRun posts qterms rank, semFullRun posts dist, _,
    lexRun_isLexList posts qterms rank, semFullRun_isSemFull posts dist,
    sortByDesc_perm _ _, sortByDesc_sorted (fun r : HRow => r.rrf_score) _, rfl⟩

/-- A canonical execution of `search_posts_semantic`. -/
def semanticRun (posts : List Post) (dist : Post → ℚ) (matchCount : Nat) :
    List (Post × ℚ) :=
  ((semFullRun posts dist).take matchCount).map (toSemRow dist)

theorem semanticRun_isSemanticRun (posts : List Post) (dist : Post → ℚ)
    (matchCount : Nat) :
    IsSemanticRun posts dist matchCount (semanticRun posts dist matchCount) :=
  ⟨semFullRun posts dist, semFullRun_isSemFull posts dist, rfl⟩

/-- A canonical execution of `search_posts` (005_fix_bm25_or_proper.sql). -/
def searchPostsRun (posts : List Post) (qterms : List String)
    (rank : Post → ℚ) : List Post :=
  (List.insertionSort (lexOrder rank) (posts.filter (matchesOr qterms))).take 20

theorem lexOrder_isTotal (rank : Post → ℚ) : IsTotal Post (lexOrder rank) := by
  constructor
  intro a b
  rcases lt_trichotomy (rank a) (rank b) with h | h | h
  · exact Or.inr (Or.inl h)
  · rcases le_total b.score a.score with hs | hs
    · exact Or.inl (Or.inr ⟨h.symm, hs⟩)
    · exact Or.inr (Or.inr ⟨h, hs⟩)
  · exact Or.inl (Or.inl h)

theorem lexOrder_isTrans (rank : Post → ℚ) : IsTrans Post (lexOrder rank) := by
  constructor
  rintro a b c (hab | ⟨hab, hab'⟩) (hbc | ⟨hbc, hbc'⟩)
  · exact Or.inl (lt_trans hbc hab)
  · exact Or.inl (lt_of_le_of_lt (le_of_eq hbc) hab)
  · exact Or.inl (lt_of_lt_of_le hbc (le_of_eq hab))
  · exact Or.inr ⟨hbc.trans hab, le_trans hbc' hab'⟩

theorem searchPostsRun_isRun (posts : List Post) (qterms : List String)
    (rank : Post → ℚ) :
    IsSearchPostsRun posts qterms rank (searchPostsRun posts qterms rank) := by
  refine ⟨List.insertionSort (lexOrder rank) (posts.filter (matchesOr qterms)),
    List.perm_insertionSort _ _, ?_, rfl⟩
  haveI := lexOrder_isTotal rank
  haveI := lexOrder_isTrans rank
  exact List.sorted_insertionSort _ _

/-! ### Core facts about the combined CTE -/

/-- Every id in `combinedIds` comes from one of the two legs. -/
theorem mem_combinedIds {lexList semList : List Post} {pid : Nat}
    (h : pid ∈ combinedIds lexList semList) :
    (∃ x ∈ lexList, x.id = pid) ∨ (∃ x ∈ semList, x.id = pid) := by
  simp only [combinedIds, List.mem_append, List.mem_map, List.mem_filter] at h
  rcases h with ⟨x, hx, hxid⟩ | ⟨⟨x, hx, hxid⟩, _⟩
  · exact Or.inl ⟨x, hx, hxid⟩
  · exact Or.inr ⟨x, hx, hxid⟩

/-- The `rrf_score` computed by the `combined` CTE equals the spec-side RRF
sum, and is strictly positive (hence never undefined). -/
theorem combinedRows_rrf {posts lexList semList : List Post}
    {dist rank : Post → ℚ} {row : HRow}
    (h : row ∈ combinedRows posts lexList semList dist rank) :
    row.rrf_score = rrfSpec lexList semList row.id ∧ 0 < row.rrf_score := by
  obtain ⟨pid, hpid, rfl⟩ := List.mem_map.mp h
  have hid : (mkHRow posts lexList semList dist rank pid).id = pid := rfl
  have hmem := mem_combinedIds hpid
  have hval : (mkHRow posts lexList semList dist rank pid).rrf_score =
      (match lexList.findIdx? (fun p => p.id == pid) with
        | some i => 1 / (60 + ((i : ℚ) + 1))
        | none => 0) +
      (match semList.findIdx? (fun p => p.id == pid) with
        | some i => 1 / (60 + ((i : ℚ) + 1))
        | none => 0) := rfl
  rw [hid, hval]
  rcases h1 : lexList.findIdx? (fun p => p.id == pid) with _ | i <;>
    rcases h2 : semList.findIdx? (fun p => p.id == pid) with _ | j <;>
    simp only [rrfSpec, contrib, rankPos, h1, h2, Option.map_some', Option.map_none']
  · exfalso
    rcases hmem with ⟨x, hx, hxid⟩ | ⟨x, hx, hxid⟩
    · have := List.findIdx?_eq_none_iff.mp h1 x hx
      simp [hxid] at this
    · have := List.findIdx?_eq_none_iff.mp h2 x hx
      simp [hxid] at this
  · refine ⟨by push_cast; ring, by positivity⟩
  · refine ⟨by push_cast; ring, by positivity⟩
  · refine ⟨by push_cast; ring, by positivity⟩

/-- With unique primary keys, looking a member post up by its id finds it. -/
theorem find?_id_eq_of_nodup {posts : List Post}
    (hn : (posts.map (·.id)).Nodup) {x : Post} (hx : x ∈ posts) :
    posts.find? (fun p => p.id == x.id) = some x := by
  induction posts with
  | nil => cases hx
  | cons a l ih =>
    rcases List.mem_cons.mp hx with rfl | hx'
    · simp
    · have hne : (a.id == x.id) = false := by
        simp only [List.map_cons, List.nodup_cons, List.mem_map] at hn
        rw [beq_eq_false_iff_ne]
        intro hcontra
        exact hn.1 ⟨x, hx', hcontra.symm⟩
      have hn' : (l.map (·.id)).Nodup := by
        simp only [List.map_cons, List.nodup_cons] at hn
        exact hn.2
      rw [List.find?_cons, hne]
      exact ih hn' hx'

/-- Metadata resolution in the `combined` CTE: with unique ids, every row's
nullable metadata columns resolve, via the COALESCE chains, to the columns of
the unique `posts` row with that id — except `preview_excerpt`, which equals
that row's (itself nullable) excerpt. -/
theorem combinedRows_metadata {posts lexList semList : List Post}
    {dist rank : Post → ℚ}
    (hn : (posts.map (·.id)).Nodup)
    (hlexsub : ∀ p ∈ lexList, p ∈ posts)
    (hsemsub : ∀ p ∈ semList, p ∈ posts)
    {row : HRow} (h : row ∈ combinedRows posts lexList semList dist rank) :
    ∃ p ∈ posts, p.id = row.id ∧
      row.reddit_id = some p.reddit_id ∧
      row.title = some p.title ∧
      row.url = some p.url ∧
      row.score = some p.score ∧
      row.subreddit = some p.subreddit ∧
      row.created_utc = some p.created_utc ∧
      row.preview_excerpt = p.preview_excerpt := by
  obtain ⟨pid, hpid, rfl⟩ := List.mem_map.mp h
  by_cases hbl : ∃ y ∈ lexList, y.id = pid
  · -- found by the lexical leg: the COALESCE chains take the `b.`-side,
    -- and for a null excerpt the LEFT-JOINed posts row gives the same value
    have hy' : (lexList.find? (fun p => p.id == pid)).isSome := by
      rw [List.find?_isSome]
      obtain ⟨y, hymem, hyid⟩ := hbl
      exact ⟨y, hymem, by simpa using hyid⟩
    obtain ⟨y, hy⟩ := Option.isSome_iff_exists.mp hy'
    have hymem : y ∈ lexList := List.mem_of_find?_eq_some hy
    have hyid : y.id = pid := by simpa using List.find?_some hy
    have hp : posts.find? (fun q => q.id == pid) = some y := by
      rw [← hyid]
      exact find?_id_eq_of_nodup hn (hlexsub y hymem)
    refine ⟨y, hlexsub y hymem, hyid, ?_, ?_, ?_, ?_, ?_, ?_, ?_⟩ <;>
      simp only [mkHRow, hy, hp, Option.map_some', Option.some_orElse',
        Option.some_bind]
    cases hpe : y.preview_excerpt <;> simp [hpe, Option.some_orElse',
      Option.none_orElse']
  · -- found only by the vector leg: the `b.`-side is NULL and every COALESCE
    -- falls through to the LEFT-JOINed posts row
    have hb : lexList.find? (fun p => p.id == pid) = none := by
      rw [List.find?_eq_none]
      intro y hymem hcontra
      exact hbl ⟨y, hymem, by simpa using hcontra⟩
    have hsem : ∃ x ∈ semList, x.id = pid := by
      rcases mem_combinedIds hpid with ⟨x, hx, hxid⟩ | hx
      · exact absurd ⟨x, hx, hxid⟩ hbl
      · exact hx
    obtain ⟨x, hxmem, hxid⟩ := hsem
    have hp : posts.find? (fun q => q.id == pid) = some x := by
      rw [← hxid]
      exact find?_id_eq_of_nodup hn (hsemsub x hxmem)
    refine ⟨x, hsemsub x hxmem, hxid, ?_, ?_, ?_, ?_, ?_, ?_, ?_⟩ <;>
      simp only [mkHRow, hb, hp, Option.map_some', Option.map_none',
        Option.none_orElse', Option.some_bind, Option.none_bind]

/-- Truncating a list strictly before its first match removes the match
entirely. -/
theorem findIdx?_take_eq_none {l : List α} {p : α → Bool} {i m : Nat}
    (h : l.findIdx? p = some i) (hm : m ≤ i) :
    (l.take m).findIdx? p = none := by
  rw [List.findIdx?_eq_none_iff]
  intro x hx
  obtain ⟨j, hj, rfl⟩ := List.getElem_of_mem hx
  obtain ⟨hi, _, hbefore⟩ := List.findIdx?_eq_some_iff_getElem.mp h
  have hjm : j < m := by
    have := hj
    simp only [List.length_take] at this
    omega
  rw [List.getElem_take]
  simpa using hbefore j (lt_of_lt_of_le hjm hm)

/-! ### Concrete demonstration data

A three-post store exercising all join cases of `search_posts_hybrid`:
`pA` matches lexically only, `pB` matches both legs, `pC` has an embedding
but no lexical match.  `demoDist` reads the (1-dimensional) embedding and
`demoRank` depends only on the indexed lexemes, as the corresponding
PostgreSQL functions do. -/

def pA : Post :=
  ⟨1, "t3_a", "Post A", "https://a", 10, "ml", 100, some "excerpt A",
    ["t", "u"], none⟩

def pB : Post :=
  ⟨2, "t3_b", "Post B", "https://b", 5, "ml", 200, some "excerpt B",
    ["t"], some [2]⟩

def pC : Post :=
  ⟨3, "t3_c", "Post C", "https://c", 1, "ml", 300, some "excerpt C",
    [], some [1]⟩

def demoPosts : List Post := [pA, pB, pC]

def demoQ : List String := ["t"]

def demoDist : Post → ℚ := fun p => (p.embedding.getD []).headD 0

def demoRank : Post → ℚ := fun p => (p.terms.length : ℚ)

/-! ### C1 -/

/-- C1: every row of a fused (`search_posts_hybrid`) run carries an
`rrf_score` equal to the sum over the two input lists of `1/(60 + position)`
(1-based position, 0 from a list where the document is absent); the score is
always a well-defined positive rational; a document at lexical position `p`
and vector position `q` scores exactly `1/(60+p) + 1/(60+q)`, and one at
lexical position `p` only scores exactly `1/(60+p)`. -/
theorem hybrid_rrf_score_formula
    (posts : List Post) (qterms : List String) (dist rank : Post → ℚ)
    (matchCount : Nat) (lexList semFull : List Post) (sorted out : List HRow)
    (_hlex : IsLexList posts qterms rank lexList)
    (_hsem : IsSemFull posts dist semFull)
    (hperm : sorted.Perm (combinedRows posts lexList (semFull.take 100) dist rank))
    (_hsort : sorted.Sorted rrfDesc)
    (hout : out = sorted.take matchCount)
    (row : HRow) (hrow : row ∈ out) :
    row.rrf_score = rrfSpec lexList (semFull.take 100) row.id ∧
    0 < row.rrf_score ∧
    (∀ p q : Nat, rankPos lexList row.id = some p →
      rankPos (semFull.take 100) row.id = some q →
      row.rrf_score = 1 / (60 + (p : ℚ)) + 1 / (60 + (q : ℚ))) ∧
    (∀ p : Nat, rankPos lexList row.id = some p →
      rankPos (semFull.take 100) row.id = none →
      row.rrf_score = 1 / (60 + (p : ℚ))) := by
  have hmem : row ∈ combinedRows posts lexList (semFull.take 100) dist rank :=
    hperm.subset (List.mem_of_mem_take (hout ▸ hrow))
  obtain ⟨hspec, hpos⟩ := combinedRows_rrf hmem
  refine ⟨hspec, hpos, ?_, ?_⟩
  · intro p q hp hq
    rw [hspec]
    simp [rrfSpec, contrib, hp, hq]
  · intro p hp hq
    rw [hspec]
    simp [rrfSpec, contrib, hp, hq]

/-! #### A fully explicit run on the demo store

On `demoPosts` the lexical leg is `[pA, pB]` (pC has no matching lexeme),
the vector leg is `[pC, pB]` (pA has no embedding, pC is nearer), and the
combined rows score `pA ↦ 1/61`, `pB ↦ 1/62 + 1/62`, `pC ↦ 1/61`:
`pB` leads and `pA`, `pC` are tied. -/

def demoLex : List Post := [pA, pB]

def demoSem : List Post := [pC, pB]

def rowA : HRow := mkHRow demoPosts demoLex (demoSem.take 100) demoDist demoRank 1

def rowB : HRow := mkHRow demoPosts demoLex (demoSem.take 100) demoDist demoRank 2

def rowC : HRow := mkHRow demoPosts demoLex (demoSem.take 100) demoDist demoRank 3

/-- The list `demoSorted` is the combined rows in an `rrf_score DESC` order. -/
def demoSorted : List HRow := [rowB, rowA, rowC]

theorem rowA_rrf : rowA.rrf_score = 1 / 61 := by
  norm_num [rowA, mkHRow, demoLex, demoSem, pA, pB, pC]

theorem rowB_rrf : rowB.rrf_score = 1 / 31 := by
  norm_num [rowB, mkHRow, demoLex, demoSem, pA, pB, pC]

theorem rowC_rrf : rowC.rrf_score = 1 / 61 := by
  norm_num [rowC, mkHRow, demoLex, demoSem, pA, pB, pC]

theorem demoLex_isLexList : IsLexList demoPosts demoQ demoRank demoLex := by
  constructor
  · exact List.Perm.refl _
  · simp only [demoLex, List.sorted_cons, List.mem_singleton, List.sorted_singleton,
      and_true, forall_eq]
    norm_num [demoRank, pA, pB]

theorem demoSem_isSemFull : IsSemFull demoPosts demoDist demoSem := by
  constructor
  · exact List.Perm.swap pB pC []
  · simp only [demoSem, List.sorted_cons, List.mem_singleton, List.sorted_singleton,
      and_true, forall_eq]
    norm_num [demoDist, pB, pC]

theorem demoRows_eq :
    combinedRows demoPosts demoLex (demoSem.take 100) demoDist demoRank
      = [rowA, rowB, rowC] := rfl

theorem demoSorted_sorted : demoSorted.Sorted rrfDesc := by
  simp only [demoSorted, List.sorted_cons, List.mem_singleton, List.mem_cons,
    List.sorted_singleton, and_true, forall_eq, forall_eq_or_imp, rrfDesc,
    rowA_rrf, rowB_rrf, rowC_rrf, List.not_mem_nil]
  norm_num

theorem demoSorted_perm :
    demoSorted.Perm
      (combinedRows demoPosts demoLex (demoSem.take 100) demoDist demoRank) := by
  rw [demoRows_eq]
  exact List.Perm.swap rowA rowB [rowC]

/-- The explicit demo execution is a valid `search_posts_hybrid` run. -/
theorem demoSorted_isHybridRun :
    IsHybridRun demoPosts demoQ demoDist demoRank 20 demoSorted :=
  ⟨demoLex, demoSem, demoSorted, demoLex_isLexList, demoSem_isSemFull,
    demoSorted_perm, demoSorted_sorted, rfl⟩

/-- Witness for C1 at the concrete three-post store (the row of `pB`, found
by both rankers at position 2 of each list). -/
theorem hybrid_rrf_score_formula_witness :
    rowB.rrf_score = rrfSpec demoLex (demoSem.take 100) rowB.id ∧
    0 < rowB.rrf_score ∧
    (∀ p q : Nat, rankPos demoLex rowB.id = some p →
      rankPos (demoSem.take 100) rowB.id = some q →
      rowB.rrf_score = 1 / (60 + (p : ℚ)) + 1 / (60 + (q : ℚ))) ∧
    (∀ p : Nat, rankPos demoLex rowB.id = some p →
      rankPos (demoSem.take 100) rowB.id = none →
      rowB.rrf_score = 1 / (60 + (p : ℚ))) :=
  hybrid_rrf_score_formula demoPosts demoQ demoDist demoRank 20
    demoLex demoSem demoSorted demoSorted demoLex_isLexList demoSem_isSemFull
    demoSorted_perm demoSorted_sorted rfl rowB
    (List.mem_cons_self rowB [rowA, rowC])

/-! ### C3 -/

/-- C3: every fused (`search_posts_hybrid`) output is sorted by `rrf_score`
in non-increasing order: for `i < j`, `result[i].rrf_score ≥
result[j].rrf_score`. -/
theorem hybrid_output_sorted
    (posts : List Post) (qterms : List String) (dist rank : Post → ℚ)
    (matchCount : Nat) (out : List HRow)
    (hrun : IsHybridRun posts qterms dist rank matchCount out)
    (_hne : out ≠ []) (i j : Nat) (hij : i < j)
    (hi : i < out.length) (hj : j < out.length) :
    (out.get ⟨j, hj⟩).rrf_score ≤ (out.get ⟨i, hi⟩).rrf_score := by
  obtain ⟨lexList, semFull, sorted, _, _, _, hsort, hout⟩ := hrun
  have hsub : out.Sublist sorted := hout ▸ List.take_sublist matchCount sorted
  have hsorted : out.Sorted rrfDesc := List.Pairwise.sublist hsub hsort
  exact hsorted.rel_get_of_lt (by exact hij)

/-- Witness for C3: positions 0 and 1 of the explicit demo run. -/
theorem hybrid_output_sorted_witness :
    (demoSorted.get ⟨1, by decide⟩).rrf_score
      ≤ (demoSorted.get ⟨0, by decide⟩).rrf_score :=
  hybrid_output_sorted demoPosts demoQ demoDist demoRank 20 demoSorted
    demoSorted_isHybridRun (by simp [demoSorted]) 0 1 (by decide)
    (by decide) (by decide)

/-! ### C2 -/

/-- A second `rrf_score DESC` arrangement of the demo combined rows: the
tied rows of `pC` (popularity 1) and `pA` (popularity 10) in the opposite
order. -/
def demoSortedSwapped : List HRow := [rowB, rowC, rowA]

/-- C2 counterexample: on identical inputs `search_posts_hybrid` admits two
distinct output orderings — `ORDER BY rrf_score DESC` alone does not
determine the relative order of the rrf-tied rows of `pA` and `pC`, and in
the second ordering the less popular `pC` precedes the more popular `pA`,
so no popularity/id tie-break is applied. -/
theorem hybrid_order_counterexample :
    IsHybridRun demoPosts demoQ demoDist demoRank 20 demoSorted ∧
    IsHybridRun demoPosts demoQ demoDist demoRank 20 demoSortedSwapped ∧
    demoSorted ≠ demoSortedSwapped ∧
    rowA.rrf_score = rowC.rrf_score ∧
    pC.score < pA.score ∧
    rowA.id = pA.id ∧ rowC.id = pC.id ∧
    demoSorted.map (·.id) = [2, 1, 3] ∧
    demoSortedSwapped.map (·.id) = [2, 3, 1] := by
  refine ⟨demoSorted_isHybridRun, ?_, ?_, ?_, ?_, rfl, rfl, rfl, rfl⟩
  · refine ⟨demoLex, demoSem, demoSortedSwapped, demoLex_isLexList,
      demoSem_isSemFull, ?_, ?_, rfl⟩
    · rw [demoRows_eq]
      exact List.Perm.trans
        (List.Perm.cons rowB (List.Perm.swap rowA rowC []))
        (List.Perm.swap rowA rowB [rowC])
    · simp only [demoSortedSwapped, List.sorted_cons, List.mem_singleton,
        List.mem_cons, List.sorted_singleton, and_true, forall_eq,
        forall_eq_or_imp, rrfDesc, rowA_rrf, rowB_rrf, rowC_rrf]
      norm_num
  · intro h
    have := congrArg (List.map (·.id)) h
    simp only [demoSorted, demoSortedSwapped, List.map_cons, List.map_nil] at this
    have h1 : rowA.id = 1 := rfl
    have h2 : rowB.id = 2 := rfl
    have h3 : rowC.id = 3 := rfl
    rw [h1, h2, h3] at this
    exact absurd this (by decide)
  · rw [rowA_rrf, rowC_rrf]
  · decide

/-- C2 amended: the fusion step orders candidates by RRF score descending
and by nothing else — every rrf-descending arrangement of the combined rows
(truncated to the limit) is an admissible output, and every admissible
output is rrf-descending; the relative order of rrf-ties (such as equal-rrf
candidates with different popularity) is not determined. -/
theorem hybrid_order_rrf_only
    (posts : List Post) (qterms : List String) (dist rank : Post → ℚ)
    (matchCount : Nat) (lexList semFull : List Post) (comb : List HRow)
    (hlex : IsLexList posts qterms rank lexList)
    (hsem : IsSemFull posts dist semFull)
    (hperm : comb.Perm (combinedRows posts lexList (semFull.take 100) dist rank))
    (hsort : comb.Sorted rrfDesc) :
    IsHybridRun posts qterms dist rank matchCount (comb.take matchCount) ∧
    ∀ out, IsHybridRun posts qterms dist rank matchCount out →
      out.Sorted rrfDesc := by
  constructor
  · exact ⟨lexList, semFull, comb, hlex, hsem, hperm, hsort, rfl⟩
  · intro out ⟨_, _, sorted, _, _, _, hsort', hout⟩
    exact List.Pairwise.sublist (hout ▸ List.take_sublist matchCount sorted) hsort'

/-- Witness for C2's amended statement at the demo store. -/
theorem hybrid_order_rrf_only_witness :
    IsHybridRun demoPosts demoQ demoDist demoRank 20 (demoSorted.take 20) ∧
    ∀ out, IsHybridRun demoPosts demoQ demoDist demoRank 20 out →
      out.Sorted rrfDesc :=
  hybrid_order_rrf_only demoPosts demoQ demoDist demoRank 20 demoLex demoSem
    demoSorted demoLex_isLexList demoSem_isSemFull demoSorted_perm
    demoSorted_sorted

/-! ### C5 -/

/-- C5: both `search_posts_semantic` and the vector leg of
`search_posts_hybrid` rank only documents with a non-null embedding
(`WHERE p.embedding IS NOT NULL`); a document without an embedding never
appears in their output — it is excluded, not scored as zero. -/
theorem vector_requires_embedding
    (posts : List Post) (dist : Post → ℚ) (matchCount : Nat)
    (out : List (Post × ℚ)) (semFull : List Post)
    (h1 : IsSemanticRun posts dist matchCount out)
    (h2 : IsSemFull posts dist semFull) :
    (∀ r ∈ out, r.1 ∈ posts ∧ r.1.embedding.isSome = true) ∧
    (∀ p ∈ semFull.take 100, p ∈ posts ∧ p.embedding.isSome = true) ∧
    (∀ p : Post, p.embedding = none →
      (∀ r ∈ out, r.1 ≠ p) ∧ p ∉ semFull.take 100) := by
  obtain ⟨full, ⟨hperm, _⟩, hout⟩ := h1
  have hfull : ∀ q ∈ full, q ∈ posts ∧ hasEmbedding q = true := by
    intro q hq
    have := hperm.subset hq
    exact List.mem_filter.mp this
  have hsemfull : ∀ q ∈ semFull, q ∈ posts ∧ hasEmbedding q = true := by
    intro q hq
    exact List.mem_filter.mp (h2.1.subset hq)
  have hout' : ∀ r ∈ out, r.1 ∈ posts ∧ r.1.embedding.isSome = true := by
    intro r hr
    rw [hout] at hr
    obtain ⟨q, hq, rfl⟩ := List.mem_map.mp hr
    exact hfull q (List.mem_of_mem_take hq)
  refine ⟨hout', ?_, ?_⟩
  · intro p hp
    exact hsemfull p (List.mem_of_mem_take hp)
  · intro p hpemb
    constructor
    · intro r hr hrp
      have := (hout' r hr).2
      rw [hrp, hpemb] at this
      simp at this
    · intro hp
      have := (hsemfull p (List.mem_of_mem_take hp)).2
      rw [hasEmbedding, hpemb] at this
      simp at this

/-- Witness for C5 at the demo store (`pA` has no embedding). -/
theorem vector_requires_embedding_witness :
    (∀ r ∈ (demoSem.take 20).map (toSemRow demoDist),
      r.1 ∈ demoPosts ∧ r.1.embedding.isSome = true) ∧
    (∀ p ∈ demoSem.take 100, p ∈ demoPosts ∧ p.embedding.isSome = true) ∧
    (∀ p : Post, p.embedding = none →
      (∀ r ∈ (demoSem.take 20).map (toSemRow demoDist), r.1 ≠ p) ∧
      p ∉ demoSem.take 100) :=
  vector_requires_embedding demoPosts demoDist 20
    ((demoSem.take 20).map (toSemRow demoDist)) demoSem
    ⟨demoSem, demoSem_isSemFull, rfl⟩ demoSem_isSemFull

/-! ### C9 -/

/-- C9: in `search_posts_hybrid` the vector leg is truncated to the top 100
nearest neighbours (`LIMIT 100`) while the lexical leg is uncapped (every
AND-matching post appears in it); a document at vector position > 100
contributes no vector term — its `rrf_score` is exactly the lexical
contribution. -/
theorem hybrid_vector_cap
    (posts : List Post) (qterms : List String) (dist rank : Post → ℚ)
    (lexList semFull : List Post)
    (hlex : IsLexList posts qterms rank lexList)
    (hsem : IsSemFull posts dist semFull) :
    (∀ p ∈ posts, matchesAnd qterms p = true → p ∈ lexList) ∧
    (semFull.take 100).length ≤ 100 ∧
    (∀ pid pos : Nat, rankPos semFull pid = some pos → 100 < pos →
      contrib (semFull.take 100) pid = 0 ∧
      ∀ row ∈ combinedRows posts lexList (semFull.take 100) dist rank,
        row.id = pid → row.rrf_score = contrib lexList pid) := by
  have _ := hsem
  refine ⟨?_, ?_, ?_⟩
  · intro p hp hmatch
    exact hlex.1.mem_iff.mpr (List.mem_filter.mpr ⟨hp, hmatch⟩)
  · simp [List.length_take]
  · intro pid pos hpos hgt
    obtain ⟨i, hi, hipos⟩ : ∃ i, semFull.findIdx? (fun p => p.id == pid) = some i ∧ i + 1 = pos := by
      unfold rankPos at hpos
      rcases h : semFull.findIdx? (fun p => p.id == pid) with _ | i
      · rw [h] at hpos
        simp at hpos
      · rw [h] at hpos
        simp at hpos
        exact ⟨i, h, hpos⟩
    have htake : (semFull.take 100).findIdx? (fun p => p.id == pid) = none :=
      findIdx?_take_eq_none hi (by omega)
    have hcontrib : contrib (semFull.take 100) pid = 0 := by
      unfold contrib rankPos
      rw [htake]
      rfl
    refine ⟨hcontrib, ?_⟩
    intro row hrow hrid
    have := (combinedRows_rrf hrow).1
    rw [this, hrid, rrfSpec, hcontrib, add_zero]

/-- Witness for C9 at the demo store. -/
theorem hybrid_vector_cap_witness :
    (∀ p ∈ demoPosts, matchesAnd demoQ p = true → p ∈ demoLex) ∧
    (demoSem.take 100).length ≤ 100 ∧
    (∀ pid pos : Nat, rankPos demoSem pid = some pos → 100 < pos →
      contrib (demoSem.take 100) pid = 0 ∧
      ∀ row ∈ combinedRows demoPosts demoLex (demoSem.take 100) demoDist demoRank,
        row.id = pid → row.rrf_score = contrib demoLex pid) :=
  hybrid_vector_cap demoPosts demoQ demoDist demoRank demoLex demoSem
    demoLex_isLexList demoSem_isSemFull

/-! ### C7 -/

/-- C7 amended: with unique primary keys, every fused result row resolves
`reddit_id`, `title`, `url`, `score`, `subreddit` and `created_utc` to the
(schema-non-null) columns of the unique `posts` row with its id, whichever
leg found it; `preview_excerpt` equals that row's stored excerpt, which is a
nullable column — it is `none` exactly when the stored post has no
excerpt. -/
theorem hybrid_metadata_resolved
    (posts : List Post) (qterms : List String) (dist rank : Post → ℚ)
    (matchCount : Nat) (lexList semFull : List Post) (sorted out : List HRow)
    (hn : (posts.map (·.id)).Nodup)
    (hlex : IsLexList posts qterms rank lexList)
    (hsem : IsSemFull posts dist semFull)
    (hperm : sorted.Perm (combinedRows posts lexList (semFull.take 100) dist rank))
    (_hsort : sorted.Sorted rrfDesc)
    (hout : out = sorted.take matchCount)
    (row : HRow) (hrow : row ∈ out) :
    ∃ p ∈ posts, p.id = row.id ∧
      row.reddit_id = some p.reddit_id ∧
      row.title = some p.title ∧
      row.url = some p.url ∧
      row.score = some p.score ∧
      row.subreddit = some p.subreddit ∧
      row.created_utc = some p.created_utc ∧
      row.preview_excerpt = p.preview_excerpt := by
  have hmem : row ∈ combinedRows posts lexList (semFull.take 100) dist rank :=
    hperm.subset (List.mem_of_mem_take (hout ▸ hrow))
  have hlexsub : ∀ p ∈ lexList, p ∈ posts := by
    intro p hp
    exact (List.mem_filter.mp (hlex.1.subset hp)).1
  have hsemsub : ∀ p ∈ semFull.take 100, p ∈ posts := by
    intro p hp
    exact (List.mem_filter.mp (hsem.1.subset (List.mem_of_mem_take hp))).1
  exact combinedRows_metadata hn hlexsub hsemsub hmem

/-- A post with a NULL `preview_excerpt` (the column is nullable in
001_init.sql), matched by both legs. -/
def pNoEx : Post :=
  ⟨9, "t3_n", "No excerpt", "https://n", 3, "ml", 50, none, ["t"], some [1]⟩

def nexPosts : List Post := [pNoEx]

def rowN : HRow := mkHRow nexPosts [pNoEx] ([pNoEx].take 100) demoDist demoRank 9

/-- C7 counterexample: a valid `search_posts_hybrid` run whose (only) result
row has a NULL excerpt — the fused output does not always carry a non-null
excerpt, because `posts.preview_excerpt` itself is nullable. -/
theorem hybrid_metadata_counterexample :
    IsHybridRun nexPosts demoQ demoDist demoRank 20 [rowN] ∧
    rowN ∈ ([rowN] : List HRow) ∧
    rowN.preview_excerpt = none ∧
    rowN.title = some "No excerpt" := by
  refine ⟨⟨[pNoEx], [pNoEx], [rowN],
      ⟨List.Perm.refl _, List.sorted_singleton _⟩,
      ⟨List.Perm.refl _, List.sorted_singleton _⟩,
      List.Perm.refl _, List.sorted_singleton _, rfl⟩,
    List.mem_singleton.mpr rfl, rfl, rfl⟩

/-- Witness for C7's amended statement: the `pB` row of the demo run. -/
theorem hybrid_metadata_resolved_witness :
    ∃ p ∈ demoPosts, p.id = rowB.id ∧
      rowB.reddit_id = some p.reddit_id ∧
      rowB.title = some p.title ∧
      rowB.url = some p.url ∧
      rowB.score = some p.score ∧
      rowB.subreddit = some p.subreddit ∧
      rowB.created_utc = some p.created_utc ∧
      rowB.preview_excerpt = p.preview_excerpt :=
  hybrid_metadata_resolved demoPosts demoQ demoDist demoRank 20
    demoLex demoSem demoSorted demoSorted (by decide)
    demoLex_isLexList demoSem_isSemFull demoSorted_perm demoSorted_sorted
    rfl rowB (List.mem_cons_self rowB [rowA, rowC])

/-! ### C4 -/

/-- C4: in fused (`hybrid`) mode, a failing embedding call makes the whole
request fail with the 500 "Internal server error" response before any
document-store RPC is issued; and in hybrid mode the handler never calls the
lexical RPC `search_posts` at all, so it cannot return a lexical-only result
set labeled as the fused mode. -/
theorem hybrid_embed_failure_fails_request
    (q : String) (hq : 2 ≤ (jsTrim q).length) (e : String)
    (rpcData : Option (List HRow)) (rpcError : Option String) :
    GET ⟨some q, some "hybrid"⟩ (Except.error e) rpcData rpcError
      = (Response.error 500 "Internal server error" (some e),
          [ExtCall.embed q]) ∧
    (∀ embedResult : Except String (List ℚ), ∀ qq : String,
      ExtCall.rpcSearchPosts qq ∉
        (@GET HRow ⟨some q, some "hybrid"⟩ embedResult rpcData rpcError).2) := by
  have h0 : ¬((jsTrim q).length = 0) := by omega
  have h1 : ¬((jsTrim q).length < 2) := by omega
  constructor
  · simp [GET, h0, h1]
  · intro embedResult qq
    rcases embedResult with e' | emb
    · simp [GET, h0, h1]
    · rcases rpcError with _ | err <;> simp [GET, rpcRespond, h0, h1]

/-- Witness for C4: the query "hello" with a failed embedding call. -/
theorem hybrid_embed_failure_fails_request_witness :
    (GET ⟨some "hello", some "hybrid"⟩ (Except.error "boom")
        (some ([] : List HRow)) none
      = (Response.error 500 "Internal server error" (some "boom"),
          [ExtCall.embed "hello"])) ∧
    (∀ embedResult : Except String (List ℚ), ∀ qq : String,
      ExtCall.rpcSearchPosts qq ∉
        (@GET HRow ⟨some "hello", some "hybrid"⟩ embedResult
            (some ([] : List HRow)) none).2) :=
  hybrid_embed_failure_fails_request "hello" (by decide) "boom"
    (some ([] : List HRow)) none

/-! ### C10 -/

/-- C10: a request that fails validation (missing or too-short query after
trimming, or an unrecognized mode) is answered with a 400 validation error
and an empty list of external calls: neither the embedding provider nor any
document-store RPC is contacted. -/
theorem validation_precedes_external_calls
    (req : Request) (embedResult : Except String (List ℚ))
    (rpcData : Option (List HRow)) (rpcError : Option String)
    (h : FailsValidation req) :
    ∃ msg, @GET HRow req embedResult rpcData rpcError
      = (Response.error 400 msg none, []) := by
  rcases req with ⟨q?, mode?⟩
  rcases q? with _ | q
  · exact ⟨"Query parameter \"q\" is required", rfl⟩
  · rcases h with hshort | hmode
    · have hlen : (jsTrim q).length < 2 := hshort q rfl
      by_cases h0 : (jsTrim q).length = 0
      · exact ⟨"Query parameter \"q\" is required", by simp [GET, h0]⟩
      · exact ⟨"Query must be at least 2 characters", by simp [GET, h0, hlen]⟩
    · simp only [Request.mode] at hmode
      by_cases h0 : (jsTrim q).length = 0
      · exact ⟨"Query parameter \"q\" is required", by simp [GET, h0]⟩
      · by_cases h1 : (jsTrim q).length < 2
        · exact ⟨"Query must be at least 2 characters", by simp [GET, h0, h1]⟩
        · exact ⟨"Invalid mode. Must be: bm25, semantic, or hybrid",
            by simp [GET, h0, h1, hmode]⟩

/-- Witness for C10: a one-character query is rejected with no external
call. -/
theorem validation_precedes_external_calls_witness :
    ∃ msg, @GET HRow ⟨some "x", some "hybrid"⟩ (Except.ok []) none none
      = (Response.error 400 msg none, []) :=
  validation_precedes_external_calls ⟨some "x", some "hybrid"⟩
    (Except.ok []) none none
    (Or.inl (by intro q hq; cases hq; decide))

/-! ### C8 -/

/-- C8 counterexample: the two-character query "ab" passes the length check,
but with an unrecognized mode the request is still rejected by validation
and never proceeds to ranking (no external call is made) — so "trimmed
length ≥ 2 implies the request proceeds to ranking" is false as stated. -/
theorem length_two_counterexample :
    2 ≤ (jsTrim "ab").length ∧
    @GET HRow ⟨some "ab", some "nonsense"⟩ (Except.ok []) none none
      = (Response.error 400 "Invalid mode. Must be: bm25, semantic, or hybrid"
          none, []) := by
  constructor
  · decide
  · have h0 : ¬((jsTrim "ab").length = 0) := by decide
    have h1 : ¬((jsTrim "ab").length < 2) := by decide
    simp [GET, h0, h1]

/-- C8 amended: a query of trimmed length ≤ 1 (including 0/missing) is
rejected with one of the two 400 validation messages and no external call;
a query of trimmed length ≥ 2 passes both query checks, and whenever the
mode is one of `bm25`, `semantic`, `hybrid` the request proceeds past
validation to ranking: the response is never a 400 and at least one external
call is issued. -/
theorem length_validation
    (req : Request) (q : String) (hq : req.q = some q)
    (embedResult : Except String (List ℚ))
    (rpcData : Option (List HRow)) (rpcError : Option String) :
    ((jsTrim q).length ≤ 1 →
      ∃ msg, @GET HRow req embedResult rpcData rpcError
          = (Response.error 400 msg none, []) ∧
        (msg = "Query parameter \"q\" is required" ∨
         msg = "Query must be at least 2 characters")) ∧
    (2 ≤ (jsTrim q).length →
      req.mode.getD "bm25" ∈ (["bm25", "semantic", "hybrid"] : List String) →
      (∀ msg d, (@GET HRow req embedResult rpcData rpcError).1
          ≠ Response.error 400 msg d) ∧
      (@GET HRow req embedResult rpcData rpcError).2 ≠ []) := by
  rcases req with ⟨q?, mode?⟩
  cases hq
  constructor
  · intro hlen
    by_cases h0 : (jsTrim q).length = 0
    · exact ⟨"Query parameter \"q\" is required", by simp [GET, h0], Or.inl rfl⟩
    · have h1 : (jsTrim q).length < 2 := by omega
      exact ⟨"Query must be at least 2 characters", by simp [GET, h0, h1],
        Or.inr rfl⟩
  · intro hlen hmode
    simp only [Request.mode] at hmode
    have h0 : ¬((jsTrim q).length = 0) := by omega
    have h1 : ¬((jsTrim q).length < 2) := by omega
    have hnotout : ¬(mode?.getD "bm25" ∉
        (["bm25", "semantic", "hybrid"] : List String)) := fun hcon => hcon hmode
    by_cases hb : mode?.getD "bm25" = "bm25"
    · rcases rpcError with _ | err <;>
        simp [GET, rpcRespond, h0, h1, hnotout, hb]
    · by_cases hs : mode?.getD "bm25" = "semantic"
      · rcases embedResult with e' | emb
        · simp [GET, h0, h1, hnotout, hb, hs]
        · rcases rpcError with _ | err <;>
            simp [GET, rpcRespond, h0, h1, hnotout, hb, hs]
      · have hh : mode?.getD "bm25" = "hybrid" := by
          have hm := hmode
          simp only [List.mem_cons, List.not_mem_nil, or_false] at hm
          tauto
        rcases embedResult with e' | emb
        · simp [GET, h0, h1, hnotout, hb, hs, hh]
        · rcases rpcError with _ | err <;>
            simp [GET, rpcRespond, h0, h1, hnotout, hb, hs, hh]

/-- Witness for C8's amended statement: the one-character query "x" is
rejected; the two-character query "ab" in bm25 mode proceeds to ranking. -/
theorem length_validation_witness :
    (((jsTrim "x").length ≤ 1 →
      ∃ msg, @GET HRow ⟨some "x", none⟩ (Except.ok []) none none
          = (Response.error 400 msg none, []) ∧
        (msg = "Query parameter \"q\" is required" ∨
         msg = "Query must be at least 2 characters")) ∧
    (2 ≤ (jsTrim "x").length →
      (Request.mk (some "x") none).mode.getD "bm25"
          ∈ (["bm25", "semantic", "hybrid"] : List String) →
      (∀ msg d, (@GET HRow ⟨some "x", none⟩ (Except.ok []) none none).1
          ≠ Response.error 400 msg d) ∧
      (@GET HRow ⟨some "x", none⟩ (Except.ok []) none none).2 ≠ [])) ∧
    (((jsTrim "ab").length ≤ 1 →
      ∃ msg, @GET HRow ⟨some "ab", none⟩ (Except.ok []) none none
          = (Response.error 400 msg none, []) ∧
        (msg = "Query parameter \"q\" is required" ∨
         msg = "Query must be at least 2 characters")) ∧
    (2 ≤ (jsTrim "ab").length →
      (Request.mk (some "ab") none).mode.getD "bm25"
          ∈ (["bm25", "semantic", "hybrid"] : List String) →
      (∀ msg d, (@GET HRow ⟨some "ab", none⟩ (Except.ok []) none none).1
          ≠ Response.error 400 msg d) ∧
      (@GET HRow ⟨some "ab", none⟩ (Except.ok []) none none).2 ≠ [])) :=
  ⟨length_validation ⟨some "x", none⟩ "x" rfl (Except.ok []) none none,
   length_validation ⟨some "ab", none⟩ "ab" rfl (Except.ok []) none none⟩

/-! ### C6 -/

/-- Modelled from the spec: PostgreSQL's `ts_rank` is store-internal, not
code of this repository.  §4.1 specifies that "scoring combines term
frequency, inverse document frequency, and a field-weight multiplier"; this
is abstracted as a per-term weight `w` (the TF·IDF·field-weight product of
that term, identical across the documents being compared — "all else
equal"), a document scoring the sum of the weights of the distinct query
terms it matches. -/
def tsRankSpec (w : String → ℚ) (qterms : List String) (p : Post) : ℚ :=
  ((qterms.dedup.filter (fun t => p.terms.contains t)).map w).sum

/-- Summing nonnegative weights over a stronger filter gives at most the sum
over a weaker filter. -/
theorem sum_map_filter_mono (w : String → ℚ) (hw : ∀ t, 0 ≤ w t)
    (l : List String) (p q : String → Bool)
    (h : ∀ t ∈ l, p t = true → q t = true) :
    ((l.filter p).map w).sum ≤ ((l.filter q).map w).sum := by
  induction l with
  | nil => simp
  | cons a l ih =>
    have ih' := ih (fun t ht hp => h t (List.mem_cons_of_mem a ht) hp)
    by_cases hpa : p a = true
    · have hqa : q a = true := h a (List.mem_cons_self a l) hpa
      simp only [List.filter_cons, hpa, hqa, if_true, List.map_cons,
        List.sum_cons]
      linarith
    · by_cases hqa : q a = true
      · simp only [List.filter_cons, hpa, hqa, if_true, if_false,
          Bool.false_eq_true, List.map_cons, List.sum_cons]
        have := hw a
        linarith
      · simp only [List.filter_cons, hpa, hqa, if_false, Bool.false_eq_true]
        exact ih'

/-- C6 amended: the standalone lexical search (`search_posts` after
005_fix_bm25_or_proper.sql, the bm25 mode) uses OR semantics — its candidate
set is exactly the documents matching at least one stemmed query term, every
returned row matches at least one term, and under the spec-modelled TF-IDF
scoring a document matching a superset of the query terms scores at least as
high, all else equal.  (The lexical leg inside fused mode instead uses
`websearch_to_tsquery`, i.e. AND semantics — see the counterexample.) -/
theorem searchPosts_or_semantics
    (posts : List Post) (qterms : List String) (w : String → ℚ)
    (full out : List Post)
    (hw : ∀ t, 0 ≤ w t)
    (hperm : full.Perm (posts.filter (matchesOr qterms)))
    (_hsort : full.Sorted (lexOrder (tsRankSpec w qterms)))
    (hout : out = full.take 20) :
    (∀ p : Post, p ∈ full ↔ p ∈ posts ∧ matchesOr qterms p = true) ∧
    (∀ p ∈ out, p ∈ posts ∧ matchesOr qterms p = true) ∧
    (∀ d1 d2 : Post, (∀ t ∈ qterms, t ∈ d2.terms → t ∈ d1.terms) →
      tsRankSpec w qterms d2 ≤ tsRankSpec w qterms d1) := by
  have hfull : ∀ p : Post, p ∈ full ↔ p ∈ posts ∧ matchesOr qterms p = true := by
    intro p
    rw [hperm.mem_iff, List.mem_filter]
  refine ⟨hfull, ?_, ?_⟩
  · intro p hp
    exact (hfull p).mp (List.mem_of_mem_take (hout ▸ hp))
  · intro d1 d2 hsub
    unfold tsRankSpec
    apply sum_map_filter_mono w hw
    intro t ht hp
    have ht' : t ∈ qterms := List.mem_dedup.mp ht
    have hmem : t ∈ d2.terms := by simpa using hp
    simpa using hsub t ht' hmem

/-- A post containing the stemmed term "machin" but not "learn". -/
def pMach : Post :=
  ⟨11, "t3_m", "Machine post", "https://m", 2, "ml", 10, some "e",
    ["machin"], none⟩

def qML : List String := ["machin", "learn"]

/-- C6 counterexample: for the two-term query, `pMach` matches one term, so
OR semantics includes it — and the standalone `search_posts` candidate set
does contain it — but the lexical leg of `search_posts_hybrid`
(`websearch_to_tsquery`, AND semantics) excludes it from every valid run,
whatever the `ts_rank` values: the fused-mode lexical ranker does not use OR
semantics. -/
theorem hybrid_lexical_not_or_counterexample :
    matchesOr qML pMach = true ∧
    matchesAnd qML pMach = false ∧
    (∀ full : List Post, full.Perm (List.filter (matchesOr qML) [pMach]) →
      pMach ∈ full) ∧
    (∀ (lexList : List Post) (rank : Post → ℚ),
      IsLexList [pMach] qML rank lexList → pMach ∉ lexList) := by
  refine ⟨by decide, by decide, ?_, ?_⟩
  · intro full hperm
    exact hperm.mem_iff.mpr (by decide)
  · intro lexList rank hlex hmem
    have hcon := hlex.1.subset hmem
    exact absurd hcon (by decide)

/-- Witness for C6's amended statement at the demo store with unit
weights. -/
theorem searchPosts_or_semantics_witness :
    (∀ p : Post, p ∈ [pA, pB] ↔ p ∈ demoPosts ∧ matchesOr demoQ p = true) ∧
    (∀ p ∈ ([pA, pB] : List Post).take 20,
      p ∈ demoPosts ∧ matchesOr demoQ p = true) ∧
    (∀ d1 d2 : Post, (∀ t ∈ demoQ, t ∈ d2.terms → t ∈ d1.terms) →
      tsRankSpec (fun _ => (1 : ℚ)) demoQ d2
        ≤ tsRankSpec (fun _ => (1 : ℚ)) demoQ d1) :=
  searchPosts_or_semantics demoPosts demoQ (fun _ => (1 : ℚ))
    [pA, pB] (([pA, pB] : List Post).take 20)
    (fun _ => zero_le_one)
    (List.Perm.refl _)
    (by
      refine List.sorted_cons.mpr ⟨?_, List.sorted_singleton pB⟩
      intro b hb
      rw [List.mem_singleton] at hb
      subst hb
      show tsRankSpec (fun _ => (1 : ℚ)) demoQ pB
            < tsRankSpec (fun _ => (1 : ℚ)) demoQ pA ∨
          (tsRankSpec (fun _ => (1 : ℚ)) demoQ pB
            = tsRankSpec (fun _ => (1 : ℚ)) demoQ pA ∧ pB.score ≤ pA.score)
      exact Or.inr ⟨rfl, by decide⟩)
    rfl

end RedditSearch
